import Mathlib

/-!
Verification of the COPY-BINARY row encoder (src/main.rs).

Shallow embedding conventions:
* The numeric encoder `numeric_to_postgres_binary` operates on the decimal
  string produced by Rust's `f64::to_string` after `split('.')`.  We embed it
  as a function of the sign bit together with the byte lists of the integer
  part and the fractional part of that string (ASCII codes, so a decimal
  digit `d` is the byte `48 + d`).  The float-to-shortest-decimal-string
  conversion itself is the unmodelled boundary.
* Machine integers are modelled as `Nat`/`Int`; the serialized big-endian
  two's-complement fields reduce values modulo `2 ^ width` exactly where the
  Rust casts do.
* `DateTime<Utc>` values are modelled as integer microseconds since the Unix
  epoch; `chrono`'s `num_microseconds` returning `None` (and the subsequent
  `unwrap` panic) is modelled by `Option`.
* The thread-local random temperature perturbation is modelled by an oracle
  argument (a function from the row index to the resulting temperature);
  none of the generator claims depend on the temperature values.
-/

/-- `b'0'` subtraction used by the digit-chunk loop: `(digit - b'0')`.
On every reachable input (ASCII codes of `f64::to_string` output with `'.'`
removed, all of which are `≥ 48`) Nat truncated subtraction agrees with the
Rust `u8` subtraction. -/
def dval (b : ℕ) : ℕ := b - 48

/-- Value of a decimal digit-byte string, most significant first
(`"237"` ↦ 237). -/
def natVal (l : List ℕ) : ℕ := l.foldl (fun x b => 10 * x + dval b) 0

/-- Rust's `slice::chunks(4)`: split from the left into chunks of 4, the last
chunk possibly shorter (an empty slice yields no chunks). -/
def chunks4 : List ℕ → List (List ℕ)
  | [] => []
  | [a] => [[a]]
  | [a, b] => [[a, b]]
  | [a, b, c] => [[a, b, c]]
  | a :: b :: c :: d :: rest => [a, b, c, d] :: chunks4 rest

/-- The per-chunk fold `value += (digit - b'0') * 10^(3 - i)` of
`numeric_to_postgres_binary`, written out for the chunk lengths `≤ 4` that
`chunks(4)` can produce. -/
def chunkVal : List ℕ → ℕ
  | [] => 0
  | [a] => dval a * 1000
  | [a, b] => dval a * 1000 + dval b * 100
  | [a, b, c] => dval a * 1000 + dval b * 100 + dval c * 10
  | a :: b :: c :: d :: _ => dval a * 1000 + dval b * 100 + dval c * 10 + dval d

/-- `weight = ((integer.len() as i16 - 1) / 4) as i16`.  For the reachable
inputs the integer part is nonempty, where Rust's truncating `i16` division
agrees with this Nat expression (and for length 0 both give 0). -/
def numericWeight (ip : List ℕ) : ℕ := (ip.length - 1) / 4

/-- `padding = if integer.len() % 4 != 0 { 4 - integer.len() % 4 } else { 0 }`. -/
def numericPadding (n : ℕ) : ℕ := if n % 4 ≠ 0 then 4 - n % 4 else 0

/-- `format!("{:0>width$}{}", integer, fraction, width = integer.len() + padding)`:
the integer part left-padded with `'0'` (byte 48), then the fraction. -/
def paddedDigits (ip fp : List ℕ) : List ℕ :=
  List.replicate (numericPadding ip.length) 48 ++ ip ++ fp

/-- The Postgres numeric wire header and digit groups computed by
`numeric_to_postgres_binary` before serialization:
(ndigits, weight, sign, dscale, digits). -/
structure NumericWire where
  ndigits : ℕ
  weight : ℕ
  sign : ℕ
  dscale : ℕ
  digits : List ℕ
deriving Repr, DecidableEq

/-- The numeric encoder of `numeric_to_postgres_binary` up to (but not
including) byte serialization.  `neg` is `value.is_sign_negative()`; `ip`,
`fp` are the ASCII bytes of the integer and fractional parts of
`abs_value.to_string()`. -/
def numericEncode (neg : Bool) (ip fp : List ℕ) : NumericWire :=
  ⟨((chunks4 (paddedDigits ip fp)).map chunkVal).length, numericWeight ip,
    (if neg then 0x4000 else 0x0000), fp.length,
    (chunks4 (paddedDigits ip fp)).map chunkVal⟩

/-- Big-endian two's-complement serialization of `n` into `k` bytes
(`write_i16/i32/i64::<BigEndian>`). -/
def beBytes (k : ℕ) (n : ℤ) : List ℕ :=
  (List.range k).map (fun i => (n % (2 : ℤ) ^ (8 * k)).toNat / 256 ^ (k - 1 - i) % 256)

def i16be : ℤ → List ℕ := beBytes 2
def i32be : ℤ → List ℕ := beBytes 4
def i64be : ℤ → List ℕ := beBytes 8

/-- Byte output of `numeric_to_postgres_binary`: ndigits, weight, sign,
dscale, then each base-10000 digit group, all as big-endian `i16`. -/
def numeric_to_postgres_binary (neg : Bool) (ip fp : List ℕ) : List ℕ :=
  let w := numericEncode neg ip fp
  i16be (w.ndigits : ℤ) ++ i16be (w.weight : ℤ) ++ i16be (w.sign : ℤ) ++
    i16be (w.dscale : ℤ) ++ (w.digits.map (fun d => i16be (d : ℤ))).flatten

/-- Base-10000 positional reconstruction
`sum(digit[i] * 10000^(weight - i))` of a digit-group list starting at
weight `w`. -/
def reconstruct : List ℕ → ℤ → ℚ
  | [], _ => 0
  | g :: gs, w => (g : ℚ) * (10000 : ℚ) ^ w + reconstruct gs (w - 1)

/-- Sign application for the numeric wire sign flag (0x4000 = negative). -/
def applySign (sign : ℕ) (q : ℚ) : ℚ := if sign = 0x4000 then -q else q

/-- The rational value denoted by a sign bit and the decimal integer/fraction
digit-byte strings: `±(intpart + fracpart / 10^dscale)`. -/
def decimalValue (neg : Bool) (ip fp : List ℕ) : ℚ :=
  (if neg then -1 else 1) * ((natVal ip : ℚ) + (natVal fp : ℚ) / 10 ^ fp.length)

/-- Abbreviation for integer powers of ten in `ℚ`, used to relate the
base-10000 digit positions to the decimal value. -/
def tenz (e : ℤ) : ℚ := (10 : ℚ) ^ e

/-- The fixed epoch `2000-01-01T00:00:00Z`, as microseconds since the Unix
epoch (the unit in which we model `DateTime<Utc>` instants). -/
def POSTGRES_EPOCH : ℤ := 946684800000000

/-- `datetime_to_postgres_binary`: microseconds between the timestamp and
`POSTGRES_EPOCH`.  `chrono`'s `num_microseconds` yields `None` when the
delta does not fit a signed 64-bit integer, and the code's `unwrap` then
panics; both are modelled by the `none` branch.  The `i64` range is
`[-2^63, 2^63 - 1]`. -/
def datetime_to_postgres_binary (t : ℤ) : Option ℤ :=
  if -9223372036854775808 ≤ t - POSTGRES_EPOCH ∧
      t - POSTGRES_EPOCH ≤ 9223372036854775807 then
    some (t - POSTGRES_EPOCH)
  else none

/-- Generous over-approximations of the microsecond range (relative to the
Unix epoch) of instants representable by `chrono::DateTime<Utc>`, whose
dates span `-262144-01-01` to `+262142-12-31`: 262143 366-day years forward
and 264115 366-day years back from 1970 strictly contain that span. -/
def CHRONO_MAX_MICROS : ℤ := 262143 * 366 * 86400 * 1000000

def CHRONO_MIN_MICROS : ℤ := -(264115 * 366 * 86400 * 1000000)

/-- A row as consumed by `generate_buffer`, with the temperature already in
the decimal-string form in which `numeric_to_postgres_binary` processes it
(sign bit plus ASCII integer/fraction parts of `f64::to_string`). -/
structure ERow where
  created : ℤ
  sensor_id : ℤ
  tneg : Bool
  tint : List ℕ
  tfrac : List ℕ
deriving Repr, DecidableEq

/-- `b"PGCOPY\n\xff\r\n\0"` followed by the two zero `i32` header fields. -/
def PGCOPY_HEADER : List ℕ :=
  [80, 71, 67, 79, 80, 89, 10, 255, 13, 10, 0] ++ i32be 0 ++ i32be 0

/-- The bytes `generate_buffer` writes for one row: field count 3, then the
length-prefixed timestamp, sensor id and numeric temperature fields.  `none`
models the `unwrap` panic of the timestamp conversion. -/
def rowBytes (r : ERow) : Option (List ℕ) :=
  (datetime_to_postgres_binary r.created).map (fun micros =>
    i16be 3 ++ (i32be 8 ++ i64be micros) ++ (i32be 4 ++ i32be r.sensor_id) ++
      (i32be ((numeric_to_postgres_binary r.tneg r.tint r.tfrac).length : ℤ) ++
        numeric_to_postgres_binary r.tneg r.tint r.tfrac))

/-- Concatenation of the per-row bytes of a batch, in order. -/
def rowsBytes : List ERow → Option (List ℕ)
  | [] => some []
  | r :: rs =>
      (rowBytes r).bind (fun b => (rowsBytes rs).map (fun bs => b ++ bs))

/-- `generate_buffer`: header, the rows, then the `i16` terminator `-1`. -/
def generate_buffer (rows : List ERow) : Option (List ℕ) :=
  (rowsBytes rows).map (fun body => PGCOPY_HEADER ++ body ++ i16be (-1))

/-- The byte count claim C3 assigns to one row record: 2 (field count)
+ 4 + 8 (timestamp) + 4 + 4 (sensor id) + 4 + numeric payload length. -/
def rowSize (r : ERow) : ℕ :=
  2 + 4 + 8 + 4 + 4 + 4 + (numeric_to_postgres_binary r.tneg r.tint r.tfrac).length

/-- `BATCH_SIZE` constant of the generator. -/
def BATCH_SIZE : ℕ := 10000

/-- `MAX_SENSORS` constant of the generator. -/
def MAX_SENSORS : ℤ := 32

/-- A generated row `(created, sensor_id, temperature)`; timestamps are
microseconds since the Unix epoch and the temperature is whatever rational
the random perturbation oracle produced. -/
abbrev GRow : Type := ℤ × ℤ × ℚ

/-- The loop body of `generate_batch`: for successive indices `i` the
running sensor counter is updated by
`current_sensor_id = (current_sensor_id + i) % MAX_SENSORS + 1` and a row
`(created, current_sensor_id, temperature_i)` is emitted.  `temp` is the
oracle standing for the rounded random temperature of each index. -/
def batchGo (temp : ℕ → ℚ) (created : ℤ) : List ℕ → ℤ → List GRow
  | [], _ => []
  | i :: is, cur =>
      (created, (cur + (i : ℤ)) % MAX_SENSORS + 1, temp i)
        :: batchGo temp created is ((cur + (i : ℤ)) % MAX_SENSORS + 1)

/-- `generate_batch`: maps the loop over `0..BATCH_SIZE` and returns the
batch together with the function's second component `sensor_id` — the
*input* counter value, unchanged. -/
def generate_batch (temp : ℕ → ℚ) (created : ℤ) (sensor_id : ℤ) :
    List GRow × ℤ :=
  (batchGo temp created (List.range BATCH_SIZE) sensor_id, sensor_id)

/-- The loop of `generate_data`: per iteration the tick increments, the
current time advances by `Duration::milliseconds(100)` (100000 µs), one
batch is generated, and the sensor counter is replaced by the value
`generate_batch` returned.  `temp` gives each iteration its temperature
oracle (iterations use fresh randomness). -/
def dataGo (temp : ℕ → ℕ → ℚ) : ℕ → ℤ → ℤ → ℤ → ℕ → List (List GRow × ℤ)
  | 0, _, _, _, _ => []
  | fuel + 1, t, s, tick, bidx =>
      ((generate_batch (temp bidx) (t + 100000) s).1, tick + 1)
        :: dataGo temp fuel (t + 100000) (generate_batch (temp bidx) (t + 100000) s).2
            (tick + 1) (bidx + 1)

/-- `generate_data`: `batch_count` iterations starting from `start_time`,
initial sensor counter 1 and tick 0; yields `(batch, current_tick)` pairs. -/
def generate_data (temp : ℕ → ℕ → ℚ) (start_time : ℤ) (batch_count : ℕ) :
    List (List GRow × ℤ) :=
  dataGo temp batch_count start_time 1 0 0

/-- The flat sequence of rows produced by the generator: the concatenation
of its batches in order. -/
def generatedRows (temp : ℕ → ℕ → ℚ) (start_time : ℤ) (batch_count : ℕ) :
    List GRow :=
  ((generate_data temp start_time batch_count).map Prod.fst).flatten

/-- The sensor-id sequence `batchGo` produces from a given list of loop
indices and starting counter (used to compare batches independently of
their timestamps and temperatures). -/
def sensorSeq : List ℕ → ℤ → List ℤ
  | [], _ => []
  | i :: is, cur =>
      ((cur + (i : ℤ)) % MAX_SENSORS + 1)
        :: sensorSeq is ((cur + (i : ℤ)) % MAX_SENSORS + 1)

/-- The sensor-id sequence of batch `k` of a generator run (`none` when
there is no such batch). -/
def sensorsAt (temp : ℕ → ℕ → ℚ) (t : ℤ) (n k : ℕ) : Option (List ℤ) :=
  ((generate_data temp t n).get? k).map (fun pr => pr.1.map (fun r => r.2.1))

-- ===================== theorems =====================

lemma tenz_add (a b : ℤ) : tenz (a + b) = tenz a * tenz b :=
  zpow_add₀ (by norm_num) a b

lemma tenz_natCast (n : ℕ) : tenz (n : ℤ) = (10 : ℚ) ^ n := zpow_natCast 10 n

lemma ten4_zpow (w : ℤ) : (10000 : ℚ) ^ w = tenz (4 * w) := by
  rw [show (10000 : ℚ) = (10 : ℚ) ^ (4 : ℤ) from by norm_num, tenz, ← zpow_mul]

lemma natVal_foldl (l : List ℕ) : ∀ a : ℕ,
    List.foldl (fun x b => 10 * x + dval b) a l = a * 10 ^ l.length + natVal l := by
  induction l with
  | nil => intro a; simp [natVal]
  | cons h t ih =>
      intro a
      rw [show List.foldl (fun x b => 10 * x + dval b) a (h :: t)
            = List.foldl (fun x b => 10 * x + dval b) (10 * a + dval h) t from rfl,
          ih,
          show natVal (h :: t)
            = List.foldl (fun x b => 10 * x + dval b) (10 * 0 + dval h) t from rfl,
          ih, List.length_cons]
      ring

lemma natVal_cons4 (a b c d : ℕ) (rest : List ℕ) :
    natVal (a :: b :: c :: d :: rest)
      = chunkVal [a, b, c, d] * 10 ^ rest.length + natVal rest := by
  rw [show natVal (a :: b :: c :: d :: rest)
        = List.foldl (fun x e => 10 * x + dval e)
            (10 * (10 * (10 * (10 * 0 + dval a) + dval b) + dval c) + dval d) rest from rfl,
      natVal_foldl]
  simp only [chunkVal]
  ring

lemma natVal_append (xs ys : List ℕ) :
    natVal (xs ++ ys) = natVal xs * 10 ^ ys.length + natVal ys := by
  rw [show natVal (xs ++ ys)
        = List.foldl (fun x b => 10 * x + dval b) (natVal xs) ys from by
      simp [natVal, List.foldl_append],
    natVal_foldl]

lemma natVal_replicate48 (p : ℕ) : natVal (List.replicate p 48) = 0 := by
  induction p with
  | zero => rfl
  | succ n ih =>
      rw [List.replicate_succ,
          show natVal (48 :: List.replicate n 48)
            = List.foldl (fun x b => 10 * x + dval b) 0 (List.replicate n 48) from rfl]
      exact ih

theorem reconstruct_chunks : ∀ (L : List ℕ) (w : ℤ),
    reconstruct ((chunks4 L).map chunkVal) w
      = (natVal L : ℚ) * tenz (4 * w + 4 - (L.length : ℤ))
  | [], w => by
      simp [chunks4, reconstruct, natVal]
  | [a], w => by
      simp only [chunks4, List.map_cons, List.map_nil, reconstruct, List.length_cons,
        List.length_nil]
      rw [ten4_zpow, show (4 * w + 4 - ((0 + 1 : ℕ) : ℤ)) = 4 * w + 3 from by push_cast; ring,
        tenz_add, show tenz 3 = 1000 from by norm_num [tenz],
        show natVal [a] = dval a from by simp [natVal], show chunkVal [a] = dval a * 1000 from rfl]
      push_cast
      ring
  | [a, b], w => by
      simp only [chunks4, List.map_cons, List.map_nil, reconstruct, List.length_cons,
        List.length_nil]
      rw [ten4_zpow, show (4 * w + 4 - ((0 + 1 + 1 : ℕ) : ℤ)) = 4 * w + 2 from by push_cast; ring,
        tenz_add, show tenz 2 = 100 from by norm_num [tenz],
        show natVal [a, b] = 10 * dval a + dval b from by simp [natVal],
        show chunkVal [a, b] = dval a * 1000 + dval b * 100 from rfl]
      push_cast
      ring
  | [a, b, c], w => by
      simp only [chunks4, List.map_cons, List.map_nil, reconstruct, List.length_cons,
        List.length_nil]
      rw [ten4_zpow,
        show (4 * w + 4 - ((0 + 1 + 1 + 1 : ℕ) : ℤ)) = 4 * w + 1 from by push_cast; ring,
        tenz_add, show tenz 1 = 10 from by norm_num [tenz],
        show natVal [a, b, c] = 10 * (10 * dval a + dval b) + dval c from by simp [natVal],
        show chunkVal [a, b, c] = dval a * 1000 + dval b * 100 + dval c * 10 from rfl]
      push_cast
      ring
  | a :: b :: c :: d :: rest, w => by
      have ih := reconstruct_chunks rest (w - 1)
      simp only [chunks4, List.map_cons, reconstruct]
      rw [ih, natVal_cons4, ten4_zpow,
        show (4 * (w - 1) + 4 - (rest.length : ℤ)) = 4 * w - rest.length from by ring,
        show ((List.length (a :: b :: c :: d :: rest) : ℕ) : ℤ) = (rest.length : ℤ) + 4 from by
          push_cast [List.length_cons]; ring,
        show (4 * w + 4 - ((rest.length : ℤ) + 4)) = 4 * w - rest.length from by ring]
      push_cast
      rw [← tenz_natCast,
        show tenz (4 * w) = tenz (rest.length : ℤ) * tenz (4 * w - rest.length) from by
          rw [← tenz_add]; congr 1; ring]
      ring

lemma paddedDigits_length (ip fp : List ℕ) (hip : ip ≠ []) :
    (paddedDigits ip fp).length = 4 * (numericWeight ip + 1) + fp.length := by
  have h1 : 0 < ip.length := List.length_pos.mpr hip
  unfold paddedDigits numericPadding numericWeight
  simp only [List.length_append, List.length_replicate]
  split <;> omega

lemma natVal_padded (ip fp : List ℕ) :
    natVal (paddedDigits ip fp) = natVal ip * 10 ^ fp.length + natVal fp := by
  unfold paddedDigits
  rw [natVal_append, natVal_append, natVal_replicate48]
  ring

lemma encode_reconstruct_abs (ip fp : List ℕ) (hip : ip ≠ []) :
    reconstruct ((chunks4 (paddedDigits ip fp)).map chunkVal) ((numericWeight ip : ℕ) : ℤ)
      = (natVal ip : ℚ) + (natVal fp : ℚ) / 10 ^ fp.length := by
  rw [reconstruct_chunks, paddedDigits_length ip fp hip, natVal_padded,
    show (4 * ((numericWeight ip : ℕ) : ℤ) + 4
          - ((4 * (numericWeight ip + 1) + fp.length : ℕ) : ℤ))
        = -(fp.length : ℤ) from by push_cast; ring,
    show ((natVal ip * 10 ^ fp.length + natVal fp : ℕ) : ℚ)
        = (natVal ip : ℚ) * (10 : ℚ) ^ fp.length + (natVal fp : ℚ) from by push_cast; ring,
    show tenz (-(fp.length : ℤ)) = ((10 : ℚ) ^ fp.length)⁻¹ from by
      rw [tenz, zpow_neg, ← tenz, tenz_natCast]]
  have hne : ((10 : ℚ) ^ fp.length) ≠ 0 := pow_ne_zero _ (by norm_num)
  field_simp

/-- C1: for every finite decimal value given by a sign bit and decimal
integer/fraction digit strings with at most 2 fractional digits (the form in
which `numeric_to_postgres_binary` receives an `f64`), the base-10000
reconstruction `sum(digit[i] * 10000^(weight - i))` of the encoder's digit
groups, with the encoded sign flag applied, is exactly the input value. -/
theorem C1_numeric_reconstruction (neg : Bool) (ip fp : List ℕ)
    (hip : ip ≠ []) (hdig : ∀ b ∈ ip ++ fp, 48 ≤ b ∧ b ≤ 57)
    (hfp : fp.length ≤ 2) :
    applySign (numericEncode neg ip fp).sign
        (reconstruct (numericEncode neg ip fp).digits
          (((numericEncode neg ip fp).weight : ℕ) : ℤ))
      = decimalValue neg ip fp := by
  have habs := encode_reconstruct_abs ip fp hip
  cases neg with
  | false => simpa [numericEncode, applySign, decimalValue] using habs
  | true => simp [numericEncode, applySign, decimalValue, habs]

/-- Witness for C1 at the value 23.5 (sign +, integer part "23", fractional
part "5"). -/
theorem C1_numeric_reconstruction_witness :
    (([50, 51] : List ℕ) ≠ [] ∧ ([53] : List ℕ).length ≤ 2) ∧
      applySign (numericEncode false [50, 51] [53]).sign
          (reconstruct (numericEncode false [50, 51] [53]).digits
            (((numericEncode false [50, 51] [53]).weight : ℕ) : ℤ))
        = decimalValue false [50, 51] [53] :=
  ⟨⟨by decide, by decide⟩,
    C1_numeric_reconstruction false [50, 51] [53] (by decide) (by decide) (by decide)⟩

/-- C7: for the value 0.0 (decimal string "0", no fractional part) the
numeric encoder produces exactly one digit group, equal to 0, with weight 0
and dscale 0. -/
theorem C7_zero_encoding : numericEncode false [48] [] = ⟨1, 0, 0, 0, [0]⟩ := rfl

/-- C5 counterexample: on the infinite input (rendered "inf" by
`f64::to_string`, bytes [105, 110, 102]) the numeric encoder does not
produce any error — its result type has no error component — but silently
returns a normal byte sequence (ndigits 1, weight 0, sign 0, dscale 0,
digit group 6374 from the letter bytes), refuting the claim that NaN or
infinity is answered with an explicit EncodingError. -/
theorem C5_counterexample :
    numeric_to_postgres_binary false [105, 110, 102] []
      = [0, 1, 0, 0, 0, 0, 0, 0, 24, 230] := by decide

/-- C5 amended: the numeric encoder has no error path at all; a NaN input
(rendered "NaN", bytes [78, 97, 78]) is silently miscoded into an ordinary
byte sequence (digit group 3520 computed from the letter bytes). -/
theorem C5_amended_silent_miscoding :
    numeric_to_postgres_binary false [78, 97, 78] []
      = [0, 1, 0, 0, 0, 0, 0, 0, 13, 192] := by decide

/-- C2 counterexample: the one-row stream for
(timestamp = epoch + 1 day, sensor_id = 5, temperature = 23.50) is NOT the
byte sequence the claim describes, because the claimed dscale is 2: Rust
renders the f64 23.50 as "23.5", so the encoded dscale field is 1.
The timestamp is `POSTGRES_EPOCH + 86400000000` microseconds, and the
claimed sequence below is signature, zero flags, field count 3, timestamp
field (length 8, value 86400000000 µs), sensor field (length 4, value 5),
numeric field (length 12: ndigits 2, weight 0, sign 0, dscale 2, digits
[23, 5000]), terminator -1. -/
theorem C2_counterexample :
    generate_buffer [⟨946771200000000, 5, false, [50, 51], [53]⟩]
      ≠ some [80, 71, 67, 79, 80, 89, 10, 255, 13, 10, 0, 0, 0, 0, 0, 0, 0, 0, 0,
          0, 3,
          0, 0, 0, 8, 0, 0, 0, 20, 29, 215, 96, 0,
          0, 0, 0, 4, 0, 0, 0, 5,
          0, 0, 0, 12, 0, 2, 0, 0, 0, 0, 0, 2, 0, 23, 19, 136,
          255, 255] := by decide

/-- C2 amended: the one-row stream for
(timestamp = epoch + 1 day, sensor_id = 5, temperature = 23.50) is exactly
signature, zero flags, field count 3, timestamp field length 8 with value
86400000000 µs, sensor field length 4 value 5, temperature field length 12
containing ndigits 2, weight 0, sign 0, dscale 1 (not 2: the f64 23.50 is
rendered "23.5"), digit groups [23, 5000], then terminator -1. -/
theorem C2_amended_stream :
    generate_buffer [⟨946771200000000, 5, false, [50, 51], [53]⟩]
      = some [80, 71, 67, 79, 80, 89, 10, 255, 13, 10, 0, 0, 0, 0, 0, 0, 0, 0, 0,
          0, 3,
          0, 0, 0, 8, 0, 0, 0, 20, 29, 215, 96, 0,
          0, 0, 0, 4, 0, 0, 0, 5,
          0, 0, 0, 12, 0, 2, 0, 0, 0, 0, 0, 1, 0, 23, 19, 136,
          255, 255] := by decide

lemma beBytes_length (k : ℕ) (n : ℤ) : (beBytes k n).length = k := by
  simp [beBytes]

lemma rowBytes_length (r : ERow) (b : List ℕ) (h : rowBytes r = some b) :
    b.length = rowSize r := by
  unfold rowBytes at h
  rcases Option.map_eq_some'.mp h with ⟨m, _, rfl⟩
  simp only [rowSize, List.length_append, i16be, i32be, i64be, beBytes_length]
  omega

lemma rowsBytes_length : ∀ (rows : List ERow) (body : List ℕ),
    rowsBytes rows = some body → body.length = (rows.map rowSize).sum := by
  intro rows
  induction rows with
  | nil =>
      intro body h
      simp only [rowsBytes, Option.some.injEq] at h
      simp [← h]
  | cons r rs ih =>
      intro body h
      simp only [rowsBytes] at h
      rcases Option.bind_eq_some.mp h with ⟨b, hb, h2⟩
      rcases Option.map_eq_some'.mp h2 with ⟨bs, hbs, rfl⟩
      simp [List.length_append, rowBytes_length r b hb, ih bs hbs]

/-- C3: every buffer `generate_buffer` produces has length
19 + (sum of the per-row record sizes) + 2, where a row record counts
2 (field count) + 4 + 8 (timestamp) + 4 + 4 (sensor id) + 4 + numeric
payload length; and for zero rows the buffer is exactly the 19-byte header
followed by the 2-byte terminator, 21 bytes in total. -/
theorem C3_buffer_length :
    (∀ (rows : List ERow) (buf : List ℕ), generate_buffer rows = some buf →
        buf.length = 19 + (rows.map rowSize).sum + 2)
    ∧ generate_buffer ([] : List ERow) = some (PGCOPY_HEADER ++ i16be (-1))
    ∧ (PGCOPY_HEADER ++ i16be (-1)).length = 21 := by
  refine ⟨?_, rfl, by decide⟩
  intro rows buf h
  unfold generate_buffer at h
  rcases Option.map_eq_some'.mp h with ⟨body, hbody, rfl⟩
  simp only [List.length_append, rowsBytes_length rows body hbody,
    show PGCOPY_HEADER.length = 19 from rfl, i16be, beBytes_length]

/-- Witness for C3 at the empty batch: its buffer exists and the length
formula evaluates to 21 there. -/
theorem C3_buffer_length_witness :
    generate_buffer ([] : List ERow) = some (PGCOPY_HEADER ++ i16be (-1)) ∧
      (PGCOPY_HEADER ++ i16be (-1)).length = 19 + (([] : List ERow).map rowSize).sum + 2 :=
  ⟨C3_buffer_length.2.1,
    C3_buffer_length.1 [] (PGCOPY_HEADER ++ i16be (-1)) C3_buffer_length.2.1⟩

/-- C4: for every timestamp representable by `chrono::DateTime<Utc>` the
delta from the year-2000 epoch fits the signed 64-bit microsecond range, so
the temporal encoder never reaches its failure branch and returns the exact
whole-microsecond offset, negative for timestamps before the epoch.  (The
overflow failure the claim describes is unreachable over the encoder's
actual input type, so no input is ever truncated or aborted on.) -/
theorem C4_temporal_exact (t : ℤ)
    (h1 : CHRONO_MIN_MICROS ≤ t) (h2 : t ≤ CHRONO_MAX_MICROS) :
    datetime_to_postgres_binary t = some (t - POSTGRES_EPOCH)
    ∧ (-9223372036854775808 ≤ t - POSTGRES_EPOCH
        ∧ t - POSTGRES_EPOCH ≤ 9223372036854775807)
    ∧ (t < POSTGRES_EPOCH → t - POSTGRES_EPOCH < 0) := by
  simp only [CHRONO_MIN_MICROS, CHRONO_MAX_MICROS] at h1 h2
  have hr : -9223372036854775808 ≤ t - POSTGRES_EPOCH
      ∧ t - POSTGRES_EPOCH ≤ 9223372036854775807 := by
    simp only [POSTGRES_EPOCH]
    omega
  refine ⟨?_, hr, by omega⟩
  unfold datetime_to_postgres_binary
  rw [if_pos hr]

/-- Witness for C4 at the timestamp one day after the epoch. -/
theorem C4_temporal_exact_witness :
    (CHRONO_MIN_MICROS ≤ POSTGRES_EPOCH + 86400000000
        ∧ POSTGRES_EPOCH + 86400000000 ≤ CHRONO_MAX_MICROS)
    ∧ (datetime_to_postgres_binary (POSTGRES_EPOCH + 86400000000)
          = some (POSTGRES_EPOCH + 86400000000 - POSTGRES_EPOCH)
        ∧ (-9223372036854775808 ≤ POSTGRES_EPOCH + 86400000000 - POSTGRES_EPOCH
            ∧ POSTGRES_EPOCH + 86400000000 - POSTGRES_EPOCH ≤ 9223372036854775807)
        ∧ (POSTGRES_EPOCH + 86400000000 < POSTGRES_EPOCH →
            POSTGRES_EPOCH + 86400000000 - POSTGRES_EPOCH < 0)) :=
  ⟨⟨by decide, by decide⟩,
    C4_temporal_exact (POSTGRES_EPOCH + 86400000000) (by decide) (by decide)⟩

/-- C8: the temporal encoder is strictly monotonic and linear — whenever the
deltas of `t` and `t + 1` microsecond both lie in the representable signed
64-bit microsecond range, encoding `t + 1` yields exactly one more than
encoding `t`. -/
theorem C8_temporal_linear (t : ℤ)
    (h1 : -9223372036854775808 ≤ t - POSTGRES_EPOCH
        ∧ t - POSTGRES_EPOCH ≤ 9223372036854775807)
    (h2 : -9223372036854775808 ≤ t + 1 - POSTGRES_EPOCH
        ∧ t + 1 - POSTGRES_EPOCH ≤ 9223372036854775807) :
    datetime_to_postgres_binary (t + 1)
      = (datetime_to_postgres_binary t).map (fun x => x + 1) := by
  unfold datetime_to_postgres_binary
  rw [if_pos h2, if_pos h1]
  simp only [Option.map_some', Option.some.injEq]
  omega

/-- Witness for C8 at the epoch itself. -/
theorem C8_temporal_linear_witness :
    ((-9223372036854775808 ≤ POSTGRES_EPOCH - POSTGRES_EPOCH
        ∧ POSTGRES_EPOCH - POSTGRES_EPOCH ≤ 9223372036854775807)
      ∧ (-9223372036854775808 ≤ POSTGRES_EPOCH + 1 - POSTGRES_EPOCH
        ∧ POSTGRES_EPOCH + 1 - POSTGRES_EPOCH ≤ 9223372036854775807))
    ∧ datetime_to_postgres_binary (POSTGRES_EPOCH + 1)
        = (datetime_to_postgres_binary POSTGRES_EPOCH).map (fun x => x + 1) :=
  ⟨⟨⟨by decide, by decide⟩, ⟨by decide, by decide⟩⟩,
    C8_temporal_linear POSTGRES_EPOCH ⟨by decide, by decide⟩ ⟨by decide, by decide⟩⟩

lemma range_BATCH_first_two : ∃ rest, List.range BATCH_SIZE = 0 :: 1 :: rest := by
  have h : List.range BATCH_SIZE
      = 0 :: 1 :: ((List.range 9998).map Nat.succ).map Nat.succ := by
    rw [show BATCH_SIZE = 9998 + 1 + 1 from rfl, List.range_succ_eq_map,
      List.range_succ_eq_map, List.map_cons]
  exact ⟨_, h⟩

lemma generatedRows_first_two (temp : ℕ → ℕ → ℚ) (t : ℤ) (n : ℕ) :
    ∃ rest2, generatedRows temp t (n + 1)
      = (t + 100000, 2, temp 0 0) :: (t + 100000, 4, temp 0 1)
          :: (batchGo (temp 0) (t + 100000) rest2 4
              ++ ((dataGo temp n (t + 100000) 1 1 1).map Prod.fst).flatten) := by
  obtain ⟨rest, hr⟩ := range_BATCH_first_two
  refine ⟨rest, ?_⟩
  unfold generatedRows generate_data
  simp only [dataGo]
  simp only [generate_batch]
  simp only [List.map_cons, List.flatten_cons]
  rw [hr]
  simp only [batchGo]
  simp only [List.cons_append]
  norm_num [MAX_SENSORS]

/-- C6 counterexample: with starting time 0 and one batch, the first two
rows the generator produces both carry timestamp 100000 µs, so the second
row's timestamp is not 100 ms later than the first row's — all rows of one
batch share a single timestamp; only whole batches advance. -/
theorem C6_counterexample :
    ((generatedRows (fun _ _ => (0 : ℚ)) 0 1).get? 0).map (fun r => r.1) = some 100000
    ∧ ((generatedRows (fun _ _ => (0 : ℚ)) 0 1).get? 1).map (fun r => r.1) = some 100000
    ∧ (100000 : ℤ) ≠ 100000 + 100000 := by
  obtain ⟨rest2, hk⟩ := generatedRows_first_two (fun _ _ => (0 : ℚ)) 0 0
  norm_num at hk
  rw [hk]
  refine ⟨rfl, ?_, by decide⟩
  simp

lemma batchGo_times (temp : ℕ → ℚ) (c : ℤ) :
    ∀ (is : List ℕ) (cur : ℤ),
      (batchGo temp c is cur).map (fun r => r.1) = List.replicate is.length c
  | [], _ => by simp [batchGo]
  | i :: is, cur => by
      simp [batchGo, batchGo_times temp c is, List.replicate_succ]

lemma dataGo_times (temp : ℕ → ℕ → ℚ) :
    ∀ (fuel : ℕ) (t s tick : ℤ) (bidx k : ℕ), k < fuel →
      ((dataGo temp fuel t s tick bidx).get? k).map (fun pr => pr.1.map (fun r => r.1))
        = some (List.replicate BATCH_SIZE (t + 100000 * ((k : ℕ) + 1 : ℤ))) := by
  intro fuel
  induction fuel with
  | zero => intro t s tick bidx k hk; omega
  | succ m ih =>
      intro t s tick bidx k hk
      cases k with
      | zero =>
          simp [dataGo, generate_batch, batchGo_times, List.length_range]
      | succ k2 =>
          simp only [dataGo, List.get?_cons_succ]
          rw [ih (t + 100000) _ (tick + 1) (bidx + 1) k2 (by omega),
            show (t + 100000) + 100000 * ((k2 : ℕ) + 1 : ℤ)
                = t + 100000 * (((k2 + 1 : ℕ) : ℤ) + 1) from by push_cast; ring]

/-- C6 amended: the timestamp progression is per batch, not per row: every
row of batch `k` (0-based) carries the timestamp `start_time + 100 ms * (k+1)`,
so consecutive batches advance by exactly 100 ms while all rows within one
batch share the same timestamp. -/
theorem C6_amended_batch_tick (temp : ℕ → ℕ → ℚ) (t : ℤ) (n k : ℕ) (hk : k < n) :
    ((generate_data temp t n).get? k).map (fun pr => pr.1.map (fun r => r.1))
      = some (List.replicate BATCH_SIZE (t + 100000 * ((k : ℕ) + 1 : ℤ))) := by
  unfold generate_data
  exact dataGo_times temp n t 1 0 0 k hk

/-- Witness for C6 amended at the second batch of a two-batch run. -/
theorem C6_amended_batch_tick_witness :
    (1 : ℕ) < 2 ∧
      ((generate_data (fun _ _ => (0 : ℚ)) 0 2).get? 1).map
          (fun pr => pr.1.map (fun r => r.1))
        = some (List.replicate BATCH_SIZE (0 + 100000 * ((1 : ℕ) + 1 : ℤ))) :=
  ⟨by decide, C6_amended_batch_tick (fun _ _ => (0 : ℚ)) 0 2 1 (by decide)⟩

lemma batchGo_sensor_bounds (temp : ℕ → ℚ) (c : ℤ) :
    ∀ (is : List ℕ) (cur : ℤ), 0 ≤ cur → ∀ r ∈ batchGo temp c is cur,
      1 ≤ r.2.1 ∧ r.2.1 ≤ 32 := by
  intro is
  induction is with
  | nil => intro cur _ r hr; simp [batchGo] at hr
  | cons i is ih =>
      intro cur hcur r hr
      have hmod : 0 ≤ (cur + (i : ℤ)) % 32 ∧ (cur + (i : ℤ)) % 32 < 32 :=
        ⟨Int.emod_nonneg _ (by norm_num), Int.emod_lt_of_pos _ (by norm_num)⟩
      simp only [batchGo, MAX_SENSORS, List.mem_cons] at hr
      rcases hr with rfl | hr
      · constructor <;> simp <;> omega
      · exact ih _ (by omega) r hr

lemma dataGo_sensor_bounds (temp : ℕ → ℕ → ℚ) :
    ∀ (fuel : ℕ) (t s tick : ℤ) (bidx : ℕ), 0 ≤ s →
      ∀ pr ∈ dataGo temp fuel t s tick bidx, ∀ r ∈ pr.1,
        1 ≤ r.2.1 ∧ r.2.1 ≤ 32 := by
  intro fuel
  induction fuel with
  | zero => intro t s tick bidx _ pr hpr; simp [dataGo] at hpr
  | succ m ih =>
      intro t s tick bidx hs pr hpr
      simp only [dataGo, List.mem_cons] at hpr
      rcases hpr with rfl | hpr
      · intro r hr
        exact batchGo_sensor_bounds _ _ _ s hs r (by simpa [generate_batch] using hr)
      · exact ih _ _ _ _ (by simpa [generate_batch] using hs) pr hpr

/-- C9: every row the generator produces (over any start time, temperature
oracle and batch count) has a sensor identifier in the range [1, 32]. -/
theorem C9_sensor_range (temp : ℕ → ℕ → ℚ) (t : ℤ) (n : ℕ) (r : GRow)
    (hr : r ∈ generatedRows temp t n) : 1 ≤ r.2.1 ∧ r.2.1 ≤ 32 := by
  unfold generatedRows generate_data at hr
  rw [List.mem_flatten] at hr
  obtain ⟨l, hl, hrl⟩ := hr
  rw [List.mem_map] at hl
  obtain ⟨pr, hpr, rfl⟩ := hl
  exact dataGo_sensor_bounds temp n t 1 0 0 (by norm_num) pr hpr r hrl

/-- Witness for C9 at the first generated row of a one-batch run. -/
theorem C9_sensor_range_witness :
    ((100000 : ℤ), (2 : ℤ), (0 : ℚ)) ∈ generatedRows (fun _ _ => (0 : ℚ)) 0 1
    ∧ 1 ≤ (((100000 : ℤ), (2 : ℤ), (0 : ℚ)) : GRow).2.1
    ∧ (((100000 : ℤ), (2 : ℤ), (0 : ℚ)) : GRow).2.1 ≤ 32 := by
  have hmem : ((100000 : ℤ), (2 : ℤ), (0 : ℚ)) ∈ generatedRows (fun _ _ => (0 : ℚ)) 0 1 := by
    obtain ⟨rest2, hk⟩ := generatedRows_first_two (fun _ _ => (0 : ℚ)) 0 0
    norm_num at hk
    rw [hk]
    exact List.mem_cons_self _ _
  exact ⟨hmem,
    (C9_sensor_range (fun _ _ => (0 : ℚ)) 0 1 (100000, 2, 0) hmem).1,
    (C9_sensor_range (fun _ _ => (0 : ℚ)) 0 1 (100000, 2, 0) hmem).2⟩

lemma batchGo_sensors (temp : ℕ → ℚ) (c : ℤ) :
    ∀ (is : List ℕ) (cur : ℤ),
      (batchGo temp c is cur).map (fun r => r.2.1) = sensorSeq is cur
  | [], _ => by simp [batchGo, sensorSeq]
  | i :: is, cur => by
      simp [batchGo, sensorSeq, batchGo_sensors temp c is]

lemma dataGo_sensors (temp : ℕ → ℕ → ℚ) :
    ∀ (fuel : ℕ) (t s tick : ℤ) (bidx k : ℕ), k < fuel →
      ((dataGo temp fuel t s tick bidx).get? k).map (fun pr => pr.1.map (fun r => r.2.1))
        = some (sensorSeq (List.range BATCH_SIZE) s) := by
  intro fuel
  induction fuel with
  | zero => intro t s tick bidx k hk; omega
  | succ m ih =>
      intro t s tick bidx k hk
      cases k with
      | zero =>
          simp [dataGo, generate_batch, batchGo_sensors]
      | succ k2 =>
          simp only [dataGo, List.get?_cons_succ, generate_batch]
          exact ih (t + 100000) s (tick + 1) (bidx + 1) k2 (by omega)

/-- C10: `generate_batch` hands back the sensor counter it was given (not
the counter the loop reached), so the running counter in `generate_data`
stays at its initial value and every batch of a run carries the identical
sensor-id sequence, regardless of its position. -/
theorem C10_counter_unchanged_batches_identical :
    (∀ (temp : ℕ → ℚ) (created sensor_id : ℤ),
        (generate_batch temp created sensor_id).2 = sensor_id)
    ∧ (∀ (temp : ℕ → ℕ → ℚ) (t : ℤ) (n k1 k2 : ℕ), k1 < n → k2 < n →
        sensorsAt temp t n k1 = sensorsAt temp t n k2) := by
  constructor
  · intro temp c s
    rfl
  · intro temp t n k1 k2 h1 h2
    unfold sensorsAt generate_data
    rw [dataGo_sensors temp n t 1 0 0 k1 h1, dataGo_sensors temp n t 1 0 0 k2 h2]

/-- Witness for C10: a concrete counter round-trip and the sensor sequences
of the two batches of a two-batch run. -/
theorem C10_counter_unchanged_batches_identical_witness :
    (generate_batch (fun _ => (0 : ℚ)) 0 7).2 = 7
    ∧ (0 : ℕ) < 2
    ∧ sensorsAt (fun _ _ => (0 : ℚ)) 0 2 0 = sensorsAt (fun _ _ => (0 : ℚ)) 0 2 1 :=
  ⟨C10_counter_unchanged_batches_identical.1 (fun _ => (0 : ℚ)) 0 7, by decide,
    C10_counter_unchanged_batches_identical.2 (fun _ _ => (0 : ℚ)) 0 2 0 1
      (by decide) (by decide)⟩
